import Mathlib

/-!
Shallow embedding of the MemoML front end (scanner + state-machine parser),
translated from the TypeScript source.  Character indices of the source are
replaced by explicit suffix lists: the TypeScript scanner only moves its
cursor forward and slices the region between the token start and the cursor,
which a suffix-passing functional scanner captures exactly.  JavaScript
strings are modelled as lists of characters and single-character comparisons
(which JavaScript performs on code units) are modelled on Char.toNat.
-/

namespace MemoML

/-- Fixed schema name carried by the synthesized document root (kSchemaName). -/
def kSchemaName : List Char := "MemoML".toList

/-- Fixed schema version carried by the synthesized document root (kSchemaVersion). -/
def kSchemaVersion : List Char := "0.1.0".toList

/-- TokenKind enumeration of the source (the earlier revision used string
values, the later one const numeric values; both enumerate the same tags). -/
inductive TokenKind where
  | EOF
  | LEFT_BRACE
  | RIGHT_BRACE
  | SEMICOLON
  | IDENTIFIER
  | STRING
  | NUMBER
  | TRUE
  | FALSE
  | NULL
  deriving DecidableEq

/-- Result of JavaScript parseFloat on a scanner lexeme: a rational or NaN. -/
inductive JsNum where
  | nan
  | val (q : ℚ)
  deriving DecidableEq

/-- Value = string | number | boolean | null. -/
inductive Value where
  | str (s : List Char)
  | num (n : JsNum)
  | bool (b : Bool)
  | null
  deriving DecidableEq

/-- Location: 1-based line, column currently always 0 (Location.from). -/
structure Location where
  line : Nat
  column : Nat
  deriving DecidableEq

/-- Token: kind plus optional lexeme, decoded value and location. -/
structure Token where
  kind : TokenKind
  lexeme : Option (List Char)
  value : Option Value
  location : Option Location
  deriving DecidableEq

/-- Node: one key-value(-scope) entry; children are present only once a child
has been added (TypeScript leaves the field undefined until then). -/
structure Node where
  key : List Char
  value : Option Value
  children : Option (List Node)

/-- ParserState enumeration (KEY, VALUE, SCOPE, terminal EOF). -/
inductive ParserState where
  | KEY
  | VALUE
  | SCOPE
  | EOF
  deriving DecidableEq

/-- Every error the front end can raise: MemoSyntaxError carries a message and
an optional location (the scanner's throws); unexpectedToken and
incompleteDocument are the parser's plain Error throws, kept structured here.
outOfFuel is the bookkeeping value of the fuelled scan loop; the fuel chosen
by scan is always sufficient. -/
inductive MemoError where
  | MemoSyntaxError (message : String) (location : Option Location)
  | unexpectedToken (kind : TokenKind) (lexeme : Option (List Char)) (state : ParserState)
  | incompleteDocument
  | outOfFuel
  deriving DecidableEq

/-- Token.isLiteral of the later revision. -/
def Token.isLiteral (t : Token) : Bool :=
  match t.kind with
  | .STRING => true
  | .NUMBER => true
  | .TRUE => true
  | .FALSE => true
  | .NULL => true
  | _ => false

/-- The EOF token emitted after the scan loop (no lexeme, value or location). -/
def eofToken : Token := ⟨.EOF, none, none, none⟩

/-- isDot of the source: c === one dot character. -/
def isDot (c : Char) : Bool := decide (c.toNat = '.'.toNat)

/-- isDigit of the source: between the characters 0 and 9 inclusive. -/
def isDigit (c : Char) : Bool := decide ('0'.toNat ≤ c.toNat ∧ c.toNat ≤ '9'.toNat)

/-- isAlpha of the source: ascii letter or underscore. -/
def isAlpha (c : Char) : Bool :=
  decide (('a'.toNat ≤ c.toNat ∧ c.toNat ≤ 'z'.toNat) ∨
          ('A'.toNat ≤ c.toNat ∧ c.toNat ≤ 'Z'.toNat) ∨
          c.toNat = '_'.toNat)

/-- isAlphaNumeric of the source. -/
def isAlphaNumeric (c : Char) : Bool := isAlpha c || isDigit c

/-- KeywordInfo: kind and decoded value of a reserved word. -/
structure KeywordInfo where
  kind : TokenKind
  value : Option Value
  deriving DecidableEq

/-- kReservedKeywords: the fixed keyword table (false, null, true). -/
def kReservedKeywords : List (List Char × KeywordInfo) :=
  [("false".toList, ⟨.FALSE, some (.bool false)⟩),
   ("null".toList, ⟨.NULL, some .null⟩),
   ("true".toList, ⟨.TRUE, some (.bool true)⟩)]

/-- Predicate of the comment loop: keep consuming while not a newline. -/
def notNewline (d : Char) : Bool := decide (d ≠ '\n')

/-- Predicate of the string loop: keep consuming while not a double quote. -/
def notQuote (d : Char) : Bool := decide (d ≠ '"')

/-- peek of the scanners on a remaining input: the next character, or the NUL
sentinel at end of input. -/
def peekChar : List Char → Char
  | [] => '\x00'
  | c :: _ => c

/-- peekNext of the scanners: the character after the next one, or NUL. -/
def peekNextChar : List Char → Char
  | [] => '\x00'
  | [_] => '\x00'
  | _ :: d :: _ => d

/-- digitsToNat: the integer denoted by a run of decimal digit characters. -/
def digitsToNat (ds : List Char) : Nat :=
  ds.foldl (fun acc c => acc * 10 + (c.toNat - '0'.toNat)) 0

/-- Model of JavaScript parseFloat restricted to the strings this scanner
passes to it, which consist of decimal digits and dots only: an optional
integer digit run, then optionally a dot and a fraction digit run; when no
digit is matched at all the result is NaN.  Signs, exponents, Infinity and
leading whitespace never occur in a scanner lexeme and are not modelled. -/
def parseFloatModel (s : List Char) : JsNum :=
  let intPart := s.takeWhile isDigit
  match s.dropWhile isDigit with
  | '.' :: r =>
      let fracPart := r.takeWhile isDigit
      if intPart.isEmpty && fracPart.isEmpty then .nan
      else .val (mkRat (digitsToNat (intPart ++ fracPart)) (10 ^ fracPart.length))
  | _ => if intPart.isEmpty then .nan else .val (mkRat (digitsToNat intPart) 1)

namespace Scanner

/-- Scanner.string of the later revision: consume up to the closing quote;
the emitted value is the text strictly between the quotes, the lexeme the
empty string, and each consumed newline bumps the line counter.  rest is the
input just after the opening quote. -/
def scanString (rest : List Char) (line : Nat) :
    Except MemoError (List Char × Nat × Option Token) :=
  let content := rest.takeWhile notQuote
  let line' := line + content.count '\n'
  match rest.dropWhile notQuote with
  | [] => .error (.MemoSyntaxError "Unterminated string." (some ⟨line', 0⟩))
  | _ :: after => .ok (after, line', some ⟨.STRING, some [], some (.str content), none⟩)

/-- Scanner.number of the later revision: c is the already consumed first
character (a digit or a dot), rest the input after it.  Consume a digit run,
then a dot and a second digit run only when the dot is immediately followed
by a digit; the lexeme is the exact matched substring. -/
def scanNumber (c : Char) (rest : List Char) (line : Nat) :
    List Char × Nat × Option Token :=
  if peekChar (rest.dropWhile isDigit) = '.' &&
      isDigit (peekNextChar (rest.dropWhile isDigit)) then
    (((rest.dropWhile isDigit).drop 1).dropWhile isDigit, line,
     some ⟨.NUMBER,
       some (c :: rest.takeWhile isDigit ++
         '.' :: ((rest.dropWhile isDigit).drop 1).takeWhile isDigit),
       some (.num (parseFloatModel (c :: rest.takeWhile isDigit ++
         '.' :: ((rest.dropWhile isDigit).drop 1).takeWhile isDigit))), none⟩)
  else
    (rest.dropWhile isDigit, line,
     some ⟨.NUMBER, some (c :: rest.takeWhile isDigit),
       some (.num (parseFloatModel (c :: rest.takeWhile isDigit))), none⟩)

/-- Scanner.identifier of the later revision: extend the already consumed
first character with the following alphanumeric run, then look the text up in
the keyword table; unmatched text becomes an IDENTIFIER valued as itself. -/
def scanIdentifier (c : Char) (rest : List Char) (line : Nat) :
    List Char × Nat × Option Token :=
  match kReservedKeywords.lookup (c :: rest.takeWhile isAlphaNumeric) with
  | some info =>
      (rest.dropWhile isAlphaNumeric, line,
       some ⟨info.kind, some (c :: rest.takeWhile isAlphaNumeric), info.value, none⟩)
  | none =>
      (rest.dropWhile isAlphaNumeric, line,
       some ⟨.IDENTIFIER, some (c :: rest.takeWhile isAlphaNumeric),
         some (.str (c :: rest.takeWhile isAlphaNumeric)), none⟩)

/-- Scanner.scanToken of the later revision: dispatch on the consumed
character c; returns the remaining input, the updated line and the token
emitted by this step, if any. -/
def scanToken (c : Char) (rest : List Char) (line : Nat) :
    Except MemoError (List Char × Nat × Option Token) :=
  if c = '\x7b' then .ok (rest, line, some ⟨.LEFT_BRACE, some [c], some (.str [c]), none⟩)
  else if c = '\x7d' then .ok (rest, line, some ⟨.RIGHT_BRACE, some [c], some (.str [c]), none⟩)
  else if c = ';' then .ok (rest, line, some ⟨.SEMICOLON, some [c], some (.str [c]), none⟩)
  else if c = '#' then .ok (rest.dropWhile notNewline, line, none)
  else if c = ' ' then .ok (rest, line, none)
  else if c = '\r' then .ok (rest, line, none)
  else if c = '\t' then .ok (rest, line, none)
  else if c = '\n' then .ok (rest, line + 1, none)
  else if c = '"' then scanString rest line
  else if isDigit c || isDot c then .ok (scanNumber c rest line)
  else if isAlpha c then .ok (scanIdentifier c rest line)
  else .error (.MemoSyntaxError "Unexpected character." none)

/-- Scanner.scan's while loop, generic in the listener callback (which may
itself throw, as the parser's does).  Each emitted token is handed to the
listener immediately; after the loop one EOF token is emitted.  The fuel
argument only bounds the iteration count; scan below passes length + 1,
which is always enough because scanToken consumes at least the dispatched
character. -/
def scanLoop {σ : Type} (listener : σ → Token → Except MemoError σ) :
    Nat → List Char → Nat → σ → Except MemoError σ
  | 0, _, _, _ => .error .outOfFuel
  | _ + 1, [], _, s => listener s eofToken
  | fuel + 1, c :: rest, line, s =>
    match scanToken c rest line with
    | .error e => .error e
    | .ok (rem, line', none) => scanLoop listener fuel rem line' s
    | .ok (rem, line', some t) =>
      match listener s t with
      | .error e => .error e
      | .ok s' => scanLoop listener fuel rem line' s'

/-- Scanner.scan of the later revision: scan the whole source from line 1. -/
def scan {σ : Type} (listener : σ → Token → Except MemoError σ) (s : σ)
    (src : List Char) : Except MemoError σ :=
  scanLoop listener (src.length + 1) src 1 s

end Scanner

/-- Listener that collects the emitted tokens in order (as the tests do). -/
def collectToken (ts : List Token) (t : Token) : Except MemoError (List Token) :=
  .ok (ts ++ [t])

/-- A standalone scan of the later revision's Scanner, collecting the tokens. -/
def scanTokens (src : List Char) : Except MemoError (List Token) :=
  Scanner.scan collectToken [] src

/-- Model of the unchecked TypeScript cast of token.value to string in the KEY
state: a string value is taken verbatim; any other operand collapses to the
empty string (the cast is never exercised on non-string values by the scanner,
whose IDENTIFIER tokens always carry their own text as value). -/
def valueAsString : Option Value → List Char
  | some (.str s) => s
  | _ => []

/-- The freshly staged node of newNextNode: empty key, no value, no children. -/
def emptyNextNode : Node := ⟨[], none, none⟩

/-- Parser.addChild's update of one scope: materialize the children sequence
if absent, then append (in JavaScript an existing empty array is kept, which
getD also does). -/
def addChild (scope : Node) (child : Node) : Node :=
  { scope with children := some (scope.children.getD [] ++ [child]) }

/-- Apply Parser.addChild to the current scope, the last element of the scope
stack (the TypeScript mutation of currentScope, rendered functionally). -/
def addChildToTop : List Node → Node → List Node
  | [], _ => []
  | [top], child => [addChild top child]
  | n :: rest, child => n :: addChildToTop rest child

/-- Parser state: the machine state, the scope stack in TypeScript order
(element 0 is the document root object, the last element the current scope;
the source's _documentRoot field always aliases element 0, because canPopScope
forbids popping it, so this model carries the root only inside the stack), the
staged next node, and the optional trace. -/
structure Parser where
  state : ParserState
  scopeStack : List Node
  nextNode : Node
  trace : List (ParserState × Token)
  enableTrace : Bool

/-- A fresh Parser: root pre-initialized with the schema key and version,
scope stack holding just the root, staging empty, state KEY. -/
def Parser.init (tr : Bool) : Parser :=
  ⟨.KEY, [⟨kSchemaName, some (.str kSchemaVersion), none⟩], emptyNextNode, [], tr⟩

/-- Parser.currentScope: the last element of the scope stack (the stack is
never empty; the default is never reached). -/
def Parser.currentScope (p : Parser) : Node :=
  p.scopeStack.getLastD emptyNextNode

/-- Parser.canPopScope: more than the root on the stack. -/
def Parser.canPopScope (p : Parser) : Bool :=
  decide (1 < p.scopeStack.length)

/-- The SCOPE-state handler of Parser.parse.  It is also reached by the VALUE
state's fallthrough for SEMICOLON and LEFT_BRACE (with the same token, not a
re-read one). -/
def Parser.handleScope (p : Parser) (t : Token) : Except MemoError Parser :=
  if t.kind = .SEMICOLON then
    .ok { p with state := .KEY,
                 scopeStack := addChildToTop p.scopeStack p.nextNode,
                 nextNode := emptyNextNode }
  else if t.kind = .LEFT_BRACE then
    .ok { p with state := .KEY,
                 scopeStack := p.scopeStack ++ [p.nextNode],
                 nextNode := emptyNextNode }
  else .error (.unexpectedToken t.kind t.lexeme p.state)

/-- The switch of Parser.parse, after the trace bookkeeping. -/
def Parser.stepToken (p : Parser) (t : Token) : Except MemoError Parser :=
  match p.state with
  | .KEY =>
    if t.kind = .IDENTIFIER then
      .ok { p with state := .VALUE,
                   nextNode := { p.nextNode with key := valueAsString t.value } }
    else if t.kind = .RIGHT_BRACE then
      if p.canPopScope then
        .ok { p with scopeStack := addChildToTop p.scopeStack.dropLast p.currentScope,
                     nextNode := emptyNextNode }
      else .error (.unexpectedToken t.kind t.lexeme p.state)
    else if t.kind = .EOF then
      .ok { p with state := .EOF }
    else .error (.unexpectedToken t.kind t.lexeme p.state)
  | .VALUE =>
    if t.isLiteral then
      .ok { p with state := .SCOPE,
                   nextNode := { p.nextNode with value := t.value } }
    else if t.kind = .SEMICOLON || t.kind = .LEFT_BRACE then
      Parser.handleScope { p with nextNode := { p.nextNode with value := some (.bool true) } } t
    else .error (.unexpectedToken t.kind t.lexeme p.state)
  | .SCOPE => Parser.handleScope p t
  | .EOF => .error (.unexpectedToken t.kind t.lexeme p.state)

/-- The trace bookkeeping at the top of Parser.parse: record the (state,
token) pair when tracing is on. -/
def Parser.traced (p : Parser) (t : Token) : Parser :=
  if p.enableTrace then { p with trace := p.trace ++ [(p.state, t)] } else p

/-- Parser.parse: record the trace entry, then run the state machine switch
on the token. -/
def Parser.parseTok (p : Parser) (t : Token) : Except MemoError Parser :=
  (p.traced t).stepToken t

/-- Parser.documentRoot getter: fails before the terminal state is reached;
afterwards returns the document root, stack element 0 (see Parser). -/
def Parser.documentRoot (p : Parser) : Except MemoError Node :=
  if p.state ≠ .EOF then .error .incompleteDocument
  else .ok (p.scopeStack.headD emptyNextNode)

/-- Feed a token sequence one at a time, stopping at the first error (as a
test harness pushing tokens would). -/
def Parser.feedAll (p : Parser) : List Token → Except MemoError Parser
  | [] => .ok p
  | t :: ts =>
    match p.parseTok t with
    | .error e => .error e
    | .ok p' => p'.feedAll ts

/-- The exported parse function of the later revision: a fresh Scanner whose
listener feeds each token into a fresh Parser, then the finished root. -/
def parse (text : List Char) : Except MemoError Node :=
  match Scanner.scan Parser.parseTok (Parser.init false) text with
  | .error e => .error e
  | .ok p => p.documentRoot

namespace ScannerV0

/-- The earlier revision's Scanner class (the one whose constructor takes a
fileName, which it ignores).  Its lexical methods are transcribed here
separately; its character predicates were instance methods but test the same
ranges. -/
def isDot (c : Char) : Bool := decide (c.toNat = '.'.toNat)

/-- isDigit method of the earlier Scanner. -/
def isDigit (c : Char) : Bool := decide ('0'.toNat ≤ c.toNat ∧ c.toNat ≤ '9'.toNat)

/-- isAlpha method of the earlier Scanner. -/
def isAlpha (c : Char) : Bool :=
  decide (('a'.toNat ≤ c.toNat ∧ c.toNat ≤ 'z'.toNat) ∨
          ('A'.toNat ≤ c.toNat ∧ c.toNat ≤ 'Z'.toNat) ∨
          c.toNat = '_'.toNat)

/-- isAlphaNumeric method of the earlier Scanner. -/
def isAlphaNumeric (c : Char) : Bool := isAlpha c || isDigit c

/-- The earlier Scanner's private static keyword table (same three entries). -/
def keywords : List (List Char × KeywordInfo) :=
  [("false".toList, ⟨.FALSE, some (.bool false)⟩),
   ("null".toList, ⟨.NULL, some .null⟩),
   ("true".toList, ⟨.TRUE, some (.bool true)⟩)]

/-- The earlier Scanner's match method (unused by the class itself): consume
the next character only when it equals the expected one. -/
def matchChar (expected : Char) (rest : List Char) : Bool × List Char :=
  match rest with
  | [] => (false, [])
  | c :: r => if c = expected then (true, r) else (false, c :: r)

/-- string method of the earlier Scanner. -/
def scanString (rest : List Char) (line : Nat) :
    Except MemoError (List Char × Nat × Option Token) :=
  let content := rest.takeWhile notQuote
  let line' := line + content.count '\n'
  match rest.dropWhile notQuote with
  | [] => .error (.MemoSyntaxError "Unterminated string." (some ⟨line', 0⟩))
  | _ :: after => .ok (after, line', some ⟨.STRING, some [], some (.str content), none⟩)

/-- number method of the earlier Scanner. -/
def scanNumber (c : Char) (rest : List Char) (line : Nat) :
    List Char × Nat × Option Token :=
  if peekChar (rest.dropWhile isDigit) = '.' &&
      isDigit (peekNextChar (rest.dropWhile isDigit)) then
    (((rest.dropWhile isDigit).drop 1).dropWhile isDigit, line,
     some ⟨.NUMBER,
       some (c :: rest.takeWhile isDigit ++
         '.' :: ((rest.dropWhile isDigit).drop 1).takeWhile isDigit),
       some (.num (parseFloatModel (c :: rest.takeWhile isDigit ++
         '.' :: ((rest.dropWhile isDigit).drop 1).takeWhile isDigit))), none⟩)
  else
    (rest.dropWhile isDigit, line,
     some ⟨.NUMBER, some (c :: rest.takeWhile isDigit),
       some (.num (parseFloatModel (c :: rest.takeWhile isDigit))), none⟩)

/-- identifier method of the earlier Scanner. -/
def scanIdentifier (c : Char) (rest : List Char) (line : Nat) :
    List Char × Nat × Option Token :=
  match keywords.lookup (c :: rest.takeWhile isAlphaNumeric) with
  | some info =>
      (rest.dropWhile isAlphaNumeric, line,
       some ⟨info.kind, some (c :: rest.takeWhile isAlphaNumeric), info.value, none⟩)
  | none =>
      (rest.dropWhile isAlphaNumeric, line,
       some ⟨.IDENTIFIER, some (c :: rest.takeWhile isAlphaNumeric),
         some (.str (c :: rest.takeWhile isAlphaNumeric)), none⟩)

/-- scanToken method of the earlier Scanner.  Its comment case has no break of
its own and falls through into the whitespace cases, whose only statement is a
break: the executed effect is comment consumption and nothing else, as here. -/
def scanToken (c : Char) (rest : List Char) (line : Nat) :
    Except MemoError (List Char × Nat × Option Token) :=
  if c = '\x7b' then .ok (rest, line, some ⟨.LEFT_BRACE, some [c], some (.str [c]), none⟩)
  else if c = '\x7d' then .ok (rest, line, some ⟨.RIGHT_BRACE, some [c], some (.str [c]), none⟩)
  else if c = ';' then .ok (rest, line, some ⟨.SEMICOLON, some [c], some (.str [c]), none⟩)
  else if c = '#' then .ok (rest.dropWhile notNewline, line, none)
  else if c = ' ' then .ok (rest, line, none)
  else if c = '\r' then .ok (rest, line, none)
  else if c = '\t' then .ok (rest, line, none)
  else if c = '\n' then .ok (rest, line + 1, none)
  else if c = '"' then scanString rest line
  else if isDigit c || isDot c then .ok (scanNumber c rest line)
  else if isAlpha c then .ok (scanIdentifier c rest line)
  else .error (.MemoSyntaxError "Unexpected character." none)

/-- scan loop of the earlier Scanner, listener-generic like the later one. -/
def scanLoop {σ : Type} (listener : σ → Token → Except MemoError σ) :
    Nat → List Char → Nat → σ → Except MemoError σ
  | 0, _, _, _ => .error .outOfFuel
  | _ + 1, [], _, s => listener s eofToken
  | fuel + 1, c :: rest, line, s =>
    match scanToken c rest line with
    | .error e => .error e
    | .ok (rem, line', none) => scanLoop listener fuel rem line' s
    | .ok (rem, line', some t) =>
      match listener s t with
      | .error e => .error e
      | .ok s' => scanLoop listener fuel rem line' s'

/-- scan method of the earlier Scanner. -/
def scan {σ : Type} (listener : σ → Token → Except MemoError σ) (s : σ)
    (src : List Char) : Except MemoError σ :=
  scanLoop listener (src.length + 1) src 1 s

/-- A standalone scan with the earlier Scanner, collecting the tokens; the
fileName constructor argument is accepted and ignored, as in the source. -/
def scanTokens (fileName : Option (List Char)) (src : List Char) :
    Except MemoError (List Token) :=
  scan collectToken [] src

end ScannerV0

/-! Theorems. -/

/-- The head of a non-nil dropWhile result falsifies the predicate. -/
theorem dropWhile_head_false {α : Type} (p : α → Bool) :
    ∀ (l : List α) (c : α) (r : List α), l.dropWhile p = c :: r → p c = false := by
  intro l
  induction l with
  | nil => intro c r h; simp [List.dropWhile] at h
  | cons a as ih =>
    intro c r h
    by_cases hp : p a
    · rw [List.dropWhile_cons_of_pos hp] at h
      exact ih c r h
    · rw [List.dropWhile_cons_of_neg hp] at h
      cases h
      simpa using hp

/-- Updating the current scope keeps the head of the stack in place up to its
children: key and value of the bottom element are unchanged. -/
theorem addChildToTop_head (r : Node) (l : List Node) (ch : Node) :
    ∃ r' l', addChildToTop (r :: l) ch = r' :: l' ∧
      r'.key = r.key ∧ r'.value = r.value := by
  cases l with
  | nil => exact ⟨addChild r ch, [], rfl, rfl, rfl⟩
  | cons b bs => exact ⟨r, addChildToTop (b :: bs) ch, rfl, rfl, rfl⟩

/-- The trace bookkeeping changes no field but the trace. -/
theorem traced_fields (p : Parser) (t : Token) :
    (p.traced t).state = p.state ∧ (p.traced t).scopeStack = p.scopeStack ∧
    (p.traced t).nextNode = p.nextNode := by
  unfold Parser.traced
  split <;> exact ⟨rfl, rfl, rfl⟩

/-- The SCOPE handler preserves the schema-rooted shape of the scope stack. -/
theorem handleScope_stack (p : Parser) (t : Token) (p' : Parser)
    (hp : ∃ r rest, p.scopeStack = r :: rest ∧ r.key = kSchemaName ∧
      r.value = some (.str kSchemaVersion))
    (h : p.handleScope t = .ok p') :
    ∃ r rest, p'.scopeStack = r :: rest ∧ r.key = kSchemaName ∧
      r.value = some (.str kSchemaVersion) := by
  obtain ⟨r, rest, hs, hk, hv⟩ := hp
  unfold Parser.handleScope at h
  split_ifs at h
  · injection h with h
    subst h
    obtain ⟨r', l', he, hk', hv'⟩ := addChildToTop_head r rest p.nextNode
    rw [← hs] at he
    exact ⟨r', l', he, hk'.trans hk, hv'.trans hv⟩
  · injection h with h
    subst h
    refine ⟨r, rest ++ [p.nextNode], ?_, hk, hv⟩
    show p.scopeStack ++ [p.nextNode] = r :: (rest ++ [p.nextNode])
    rw [hs]
    rfl

/-- One parser step preserves the schema-rooted shape of the scope stack. -/
theorem stepToken_stack (p : Parser) (t : Token) (p' : Parser)
    (hp : ∃ r rest, p.scopeStack = r :: rest ∧ r.key = kSchemaName ∧
      r.value = some (.str kSchemaVersion))
    (h : p.stepToken t = .ok p') :
    ∃ r rest, p'.scopeStack = r :: rest ∧ r.key = kSchemaName ∧
      r.value = some (.str kSchemaVersion) := by
  obtain ⟨r, rest, hs, hk, hv⟩ := hp
  cases hst : p.state
  case KEY =>
    simp only [Parser.stepToken, hst] at h
    split_ifs at h with h1 h2 h3 h4
    all_goals injection h with h
    all_goals subst h
    all_goals try exact ⟨r, rest, hs, hk, hv⟩
    -- the remaining goal: RIGHT_BRACE with canPopScope
    have hlen : 1 < p.scopeStack.length := by
      simpa [Parser.canPopScope] using h3
    cases rest with
    | nil => rw [hs] at hlen; simp at hlen
    | cons b bs =>
      obtain ⟨r', l', he, hk', hv'⟩ :=
        addChildToTop_head r ((b :: bs).dropLast) p.currentScope
      have hdl : p.scopeStack.dropLast = r :: (b :: bs).dropLast := by
        rw [hs]
        rfl
      rw [← hdl] at he
      exact ⟨r', l', he, hk'.trans hk, hv'.trans hv⟩
  case VALUE =>
    simp only [Parser.stepToken, hst] at h
    split_ifs at h with h1 h2
    · injection h with h; subst h
      exact ⟨r, rest, hs, hk, hv⟩
    · refine handleScope_stack _ t p' ?_ h
      exact ⟨r, rest, hs, hk, hv⟩
  case SCOPE =>
    simp only [Parser.stepToken, hst] at h
    exact handleScope_stack p t p' ⟨r, rest, hs, hk, hv⟩ h
  case EOF =>
    simp only [Parser.stepToken, hst] at h
    exact Except.noConfusion h

/-- Parser.parse preserves the schema-rooted shape of the scope stack. -/
theorem parseTok_stack (p : Parser) (t : Token) (p' : Parser)
    (hp : ∃ r rest, p.scopeStack = r :: rest ∧ r.key = kSchemaName ∧
      r.value = some (.str kSchemaVersion))
    (h : p.parseTok t = .ok p') :
    ∃ r rest, p'.scopeStack = r :: rest ∧ r.key = kSchemaName ∧
      r.value = some (.str kSchemaVersion) := by
  unfold Parser.parseTok at h
  refine stepToken_stack (p.traced t) t p' ?_ h
  rw [(traced_fields p t).2.1]
  exact hp

/-- C3: in the VALUE state a SEMICOLON or LEFT_BRACE token first defaults the
staged node's value to boolean true and is then handled by the SCOPE-state
handler applied to that very token (no further token is consumed); feeding
IDENTIFIER "x", SEMICOLON, EOF yields exactly one root child with key "x" and
value true. -/
theorem C3_value_default_fallthrough :
    (∀ (p : Parser) (t : Token), p.state = .VALUE →
        t.kind = .SEMICOLON ∨ t.kind = .LEFT_BRACE →
        p.stepToken t =
          Parser.handleScope
            { p with nextNode := { p.nextNode with value := some (.bool true) } } t) ∧
    ((Parser.init false).feedAll
        [⟨.IDENTIFIER, some "x".toList, some (.str "x".toList), none⟩,
         ⟨.SEMICOLON, some ";".toList, some (.str ";".toList), none⟩,
         eofToken]).bind Parser.documentRoot =
      .ok ⟨kSchemaName, some (.str kSchemaVersion),
           some [⟨"x".toList, some (.bool true), none⟩]⟩ := by
  refine ⟨?_, by rfl⟩
  intro p t hst hk
  have hlit : t.isLiteral = false := by
    rcases hk with h | h <;> simp [Token.isLiteral, h]
  rcases hk with h | h <;> simp [Parser.stepToken, hst, hlit, h]

/-- Witness for C3 at a concrete parser in VALUE state and a SEMICOLON. -/
theorem C3_value_default_fallthrough_witness :
    (⟨.VALUE, [⟨kSchemaName, some (.str kSchemaVersion), none⟩],
      ⟨"x".toList, none, none⟩, [], false⟩ : Parser).stepToken
        ⟨.SEMICOLON, some ";".toList, some (.str ";".toList), none⟩ =
      Parser.handleScope
        ⟨.VALUE, [⟨kSchemaName, some (.str kSchemaVersion), none⟩],
         ⟨"x".toList, some (.bool true), none⟩, [], false⟩
        ⟨.SEMICOLON, some ";".toList, some (.str ";".toList), none⟩ :=
  C3_value_default_fallthrough.1 _ _ rfl (Or.inl rfl)

/-- C2: parsing the example text end to end produces the root whose children
are foo (true) and bar (true), bar containing baz ("fdfd") which contains
x (3) and y (null). -/
theorem C2_end_to_end :
    parse "foo; bar \x7b baz \"fdfd\" \x7b x 3; y null; \x7d \x7d".toList =
      .ok ⟨kSchemaName, some (.str kSchemaVersion), some
        [⟨"foo".toList, some (.bool true), none⟩,
         ⟨"bar".toList, some (.bool true), some
           [⟨"baz".toList, some (.str "fdfd".toList), some
             [⟨"x".toList, some (.num (.val 3)), none⟩,
              ⟨"y".toList, some .null, none⟩]⟩]⟩]⟩ := by
  rfl

/-- The two revisions' per-character scan steps agree. -/
theorem scanTokenV0_eq (c : Char) (rest : List Char) (line : Nat) :
    ScannerV0.scanToken c rest line = Scanner.scanToken c rest line := rfl

/-- One-step unfolding of the later revision's scan loop on remaining input. -/
theorem scanLoop_cons {σ : Type} (listener : σ → Token → Except MemoError σ)
    (n : Nat) (c : Char) (rest : List Char) (line : Nat) (s : σ) :
    Scanner.scanLoop listener (n + 1) (c :: rest) line s =
      match Scanner.scanToken c rest line with
      | .error e => .error e
      | .ok (rem, line', none) => Scanner.scanLoop listener n rem line' s
      | .ok (rem, line', some t) =>
        match listener s t with
        | .error e => .error e
        | .ok s' => Scanner.scanLoop listener n rem line' s' := rfl

/-- One-step unfolding of the earlier revision's scan loop on remaining
input. -/
theorem scanLoopV0_cons {σ : Type} (listener : σ → Token → Except MemoError σ)
    (n : Nat) (c : Char) (rest : List Char) (line : Nat) (s : σ) :
    ScannerV0.scanLoop listener (n + 1) (c :: rest) line s =
      match ScannerV0.scanToken c rest line with
      | .error e => .error e
      | .ok (rem, line', none) => ScannerV0.scanLoop listener n rem line' s
      | .ok (rem, line', some t) =>
        match listener s t with
        | .error e => .error e
        | .ok s' => ScannerV0.scanLoop listener n rem line' s' := rfl

/-- The two revisions' scan loops agree for every listener. -/
theorem scanLoopV0_eq {σ : Type} (listener : σ → Token → Except MemoError σ) :
    ∀ (fuel : Nat) (rem : List Char) (line : Nat) (s : σ),
      ScannerV0.scanLoop listener fuel rem line s =
        Scanner.scanLoop listener fuel rem line s := by
  intro fuel
  induction fuel with
  | zero => intro rem line s; rfl
  | succ n ih =>
    intro rem line s
    cases rem with
    | nil => rfl
    | cons c rest =>
      rw [scanLoopV0_cons, scanLoop_cons, scanTokenV0_eq]
      cases hsc : Scanner.scanToken c rest line with
      | error e => rfl
      | ok v =>
        obtain ⟨rem', line', t?⟩ := v
        cases t? with
        | none => exact ih rem' line' s
        | some t =>
          show (match listener s t with
                | .error e => (.error e : Except MemoError σ)
                | .ok s' => ScannerV0.scanLoop listener n rem' line' s') =
               (match listener s t with
                | .error e => .error e
                | .ok s' => Scanner.scanLoop listener n rem' line' s')
          cases listener s t with
          | error e => rfl
          | ok s' => exact ih rem' line' s'

/-- The SCOPE handler, on success, always returns to the KEY state. -/
theorem handleScope_ok_state (p : Parser) (t : Token) (p' : Parser)
    (h : p.handleScope t = .ok p') : p'.state = .KEY := by
  unfold Parser.handleScope at h
  split_ifs at h
  all_goals injection h with h
  all_goals subst h
  all_goals rfl

/-- A successful parser step lands in the terminal EOF state exactly when an
EOF token was consumed in the KEY state. -/
theorem stepToken_ok_eof_iff (p : Parser) (t : Token) (p' : Parser)
    (h : p.stepToken t = .ok p') :
    p'.state = .EOF ↔ p.state = .KEY ∧ t.kind = .EOF := by
  cases hst : p.state
  case KEY =>
    simp only [Parser.stepToken, hst] at h
    split_ifs at h with h1 h2 h3 h4
    · injection h with h; subst h
      simp [h1]
    · injection h with h; subst h
      simp [h2]
    · injection h with h; subst h
      simp [h4]
  case VALUE =>
    simp only [Parser.stepToken, hst] at h
    split_ifs at h with h1 h2
    · injection h with h; subst h
      simp
    · have hK := handleScope_ok_state _ t p' h
      simp [hK]
  case SCOPE =>
    simp only [Parser.stepToken, hst] at h
    have hK := handleScope_ok_state _ t p' h
    simp [hK]
  case EOF =>
    simp only [Parser.stepToken, hst] at h
    exact Except.noConfusion h

/-- Parser.parse reaches EOF exactly when the token is EOF in KEY state. -/
theorem parseTok_ok_eof_iff (p : Parser) (t : Token) (p' : Parser)
    (h : p.parseTok t = .ok p') :
    p'.state = .EOF ↔ p.state = .KEY ∧ t.kind = .EOF := by
  unfold Parser.parseTok at h
  have h2 := stepToken_ok_eof_iff (p.traced t) t p' h
  rwa [(traced_fields p t).1] at h2

/-- Feeding a token list preserves the schema-rooted scope stack shape. -/
theorem feedAll_stack (ts : List Token) :
    ∀ (p p' : Parser),
      (∃ r rest, p.scopeStack = r :: rest ∧ r.key = kSchemaName ∧
        r.value = some (.str kSchemaVersion)) →
      p.feedAll ts = .ok p' →
      ∃ r rest, p'.scopeStack = r :: rest ∧ r.key = kSchemaName ∧
        r.value = some (.str kSchemaVersion) := by
  induction ts with
  | nil =>
    intro p p' hp h
    unfold Parser.feedAll at h
    injection h with h
    subst h
    exact hp
  | cons t ts ih =>
    intro p p' hp h
    unfold Parser.feedAll at h
    cases hq : p.parseTok t with
    | error e => rw [hq] at h; exact Except.noConfusion h
    | ok q => rw [hq] at h; exact ih q p' (parseTok_stack p t q hp hq) h

/-- Any listener-state invariant closed under the listener steps survives a
whole scan. -/
theorem scanLoop_ok_preserves {σ : Type} (P : σ → Prop)
    (listener : σ → Token → Except MemoError σ)
    (hstep : ∀ s t s', P s → listener s t = .ok s' → P s') :
    ∀ (fuel : Nat) (rem : List Char) (line : Nat) (s s' : σ),
      P s → Scanner.scanLoop listener fuel rem line s = .ok s' → P s' := by
  intro fuel
  induction fuel with
  | zero =>
    intro rem line s s' hP h
    exact Except.noConfusion h
  | succ n ih =>
    intro rem line s s' hP h
    cases rem with
    | nil => exact hstep s eofToken s' hP h
    | cons c rest =>
      rw [scanLoop_cons] at h
      cases hsc : Scanner.scanToken c rest line with
      | error e => rw [hsc] at h; exact Except.noConfusion h
      | ok v =>
        obtain ⟨rem', line', t?⟩ := v
        rw [hsc] at h
        cases t? with
        | none => exact ih rem' line' s s' hP h
        | some t =>
          replace h : (match listener s t with
              | .error e => (.error e : Except MemoError σ)
              | .ok s1 => Scanner.scanLoop listener n rem' line' s1) = .ok s' := h
          cases hl : listener s t with
          | error e => rw [hl] at h; exact Except.noConfusion h
          | ok s1 => rw [hl] at h; exact ih rem' line' s1 s' (hstep s t s1 hP hl) h

/-- C4: the scope stack always keeps the synthesized schema root at position
0 after any successfully fed token sequence, and a RIGHT_BRACE in KEY state
with only the root on the stack raises the unexpected-token error instead of
popping. -/
theorem C4_root_scope_invariant :
    (∀ (tr : Bool) (ts : List Token) (p' : Parser),
        (Parser.init tr).feedAll ts = .ok p' →
        ∃ r rest, p'.scopeStack = r :: rest ∧ r.key = kSchemaName ∧
          r.value = some (.str kSchemaVersion)) ∧
    (∀ (p : Parser) (t : Token), p.state = .KEY → t.kind = .RIGHT_BRACE →
        p.scopeStack.length = 1 →
        p.parseTok t = .error (.unexpectedToken t.kind t.lexeme .KEY)) := by
  constructor
  · intro tr ts p' h
    exact feedAll_stack ts (Parser.init tr) p'
      ⟨⟨kSchemaName, some (.str kSchemaVersion), none⟩, [], rfl, rfl, rfl⟩ h
  · intro p t hst hk hlen
    have h1 : (p.traced t).state = .KEY := by rw [(traced_fields p t).1, hst]
    have h2 : (p.traced t).canPopScope = false := by
      unfold Parser.canPopScope
      rw [(traced_fields p t).2.1, hlen]
      rfl
    simp [Parser.parseTok, Parser.stepToken, h1, h2, hk]

/-- Witness for C4 on the empty token sequence. -/
theorem C4_root_scope_invariant_witness :
    ∃ r rest, (Parser.init false).scopeStack = r :: rest ∧
      r.key = kSchemaName ∧ r.value = some (.str kSchemaVersion) :=
  C4_root_scope_invariant.1 false [] (Parser.init false) (by rfl)

/-- C1: every successful parse returns a root carrying the fixed schema name
and version (its children being whatever entries the parser accumulated, in
order); parsing the empty string yields the bare root with no children. -/
theorem C1_parse_root_schema :
    (∀ (text : List Char) (root : Node), parse text = .ok root →
        root.key = kSchemaName ∧ root.value = some (.str kSchemaVersion)) ∧
    parse [] = .ok ⟨kSchemaName, some (.str kSchemaVersion), none⟩ := by
  refine ⟨?_, by rfl⟩
  intro text root h
  unfold parse at h
  cases hs : Scanner.scan Parser.parseTok (Parser.init false) text with
  | error e => rw [hs] at h; exact Except.noConfusion h
  | ok p =>
    rw [hs] at h
    replace h : p.documentRoot = .ok root := h
    have hP : ∃ r rest, p.scopeStack = r :: rest ∧ r.key = kSchemaName ∧
        r.value = some (.str kSchemaVersion) := by
      have hscan := hs
      unfold Scanner.scan at hscan
      exact scanLoop_ok_preserves
        (fun q => ∃ r rest, q.scopeStack = r :: rest ∧ r.key = kSchemaName ∧
          r.value = some (.str kSchemaVersion))
        Parser.parseTok
        (fun s t s' hPs hl => parseTok_stack s t s' hPs hl)
        _ _ _ _ _
        ⟨⟨kSchemaName, some (.str kSchemaVersion), none⟩, [], rfl, rfl, rfl⟩ hscan
    obtain ⟨r, rest, hsst, hk, hv⟩ := hP
    unfold Parser.documentRoot at h
    split_ifs at h
    injection h with h
    subst h
    rw [hsst]
    exact ⟨hk, hv⟩

/-- Witness for C1 at a small concrete successful parse. -/
theorem C1_parse_root_schema_witness :
    (⟨kSchemaName, some (.str kSchemaVersion),
        some [⟨"x".toList, some (.bool true), none⟩]⟩ : Node).key = kSchemaName ∧
    (⟨kSchemaName, some (.str kSchemaVersion),
        some [⟨"x".toList, some (.bool true), none⟩]⟩ : Node).value =
      some (.str kSchemaVersion) :=
  C1_parse_root_schema.1 "x;".toList
    ⟨kSchemaName, some (.str kSchemaVersion),
      some [⟨"x".toList, some (.bool true), none⟩]⟩ (by rfl)

/-- C9: documentRoot fails with the incomplete-document error in every state
but EOF and returns the built root (stack element 0) in EOF state; a
successful parse step reaches the EOF state exactly when an EOF token is
consumed in the KEY state. -/
theorem C9_documentRoot_contract :
    (∀ p : Parser,
        (p.state ≠ .EOF → p.documentRoot = .error .incompleteDocument) ∧
        (p.state = .EOF →
          p.documentRoot = .ok (p.scopeStack.headD emptyNextNode))) ∧
    (∀ (p : Parser) (t : Token) (p' : Parser), p.parseTok t = .ok p' →
        (p'.state = .EOF ↔ p.state = .KEY ∧ t.kind = .EOF)) := by
  constructor
  · intro p
    constructor <;> intro h <;> simp [Parser.documentRoot, h]
  · exact parseTok_ok_eof_iff

/-- Witness for C9: a fresh parser is not in EOF state, so reading the root
fails; after feeding EOF it succeeds. -/
theorem C9_documentRoot_contract_witness :
    (Parser.init false).documentRoot = .error .incompleteDocument ∧
    ((⟨.EOF, [⟨kSchemaName, some (.str kSchemaVersion), none⟩],
        emptyNextNode, [], false⟩ : Parser).state = .EOF ↔
      (Parser.init false).state = .KEY ∧ (eofToken).kind = .EOF) :=
  ⟨(C9_documentRoot_contract.1 (Parser.init false)).1 (by decide),
   C9_documentRoot_contract.2 (Parser.init false) eofToken
     ⟨.EOF, [⟨kSchemaName, some (.str kSchemaVersion), none⟩],
       emptyNextNode, [], false⟩ (by rfl)⟩

/-- C10: the earlier Scanner class (fileName-taking) and the later one are
behaviorally equivalent: for every input they produce equal results, token
lists equal pointwise in kind, lexeme and value, and identical errors. -/
theorem C10_scanner_equivalence (fileName : Option (List Char)) (src : List Char) :
    ScannerV0.scanTokens fileName src = scanTokens src := by
  unfold ScannerV0.scanTokens scanTokens ScannerV0.scan Scanner.scan
  exact scanLoopV0_eq collectToken (src.length + 1) src 1 []

/-- Every hit in the keyword table is one of the three reserved entries. -/
theorem kReservedKeywords_lookup_some (text : List Char) (info : KeywordInfo)
    (h : kReservedKeywords.lookup text = some info) :
    info = ⟨.FALSE, some (.bool false)⟩ ∨ info = ⟨.NULL, some .null⟩ ∨
    info = ⟨.TRUE, some (.bool true)⟩ := by
  simp only [kReservedKeywords, List.lookup] at h
  split at h
  · injection h with h
    subst h
    exact Or.inl rfl
  · split at h
    · injection h with h
      subst h
      exact Or.inr (Or.inl rfl)
    · split at h
      · injection h with h
        subst h
        exact Or.inr (Or.inr rfl)
      · exact Option.noConfusion h

/-- Text differing from all three reserved words misses the keyword table. -/
theorem kReservedKeywords_lookup_none (text : List Char)
    (h1 : text ≠ "false".toList) (h2 : text ≠ "null".toList)
    (h3 : text ≠ "true".toList) :
    kReservedKeywords.lookup text = none := by
  simp only [kReservedKeywords, List.lookup]
  rw [show (text == "false".toList) = false from beq_eq_false_iff_ne.mpr h1,
      show (text == "null".toList) = false from beq_eq_false_iff_ne.mpr h2,
      show (text == "true".toList) = false from beq_eq_false_iff_ne.mpr h3]

set_option maxHeartbeats 1000000 in
/-- No scanToken step ever emits an EOF token: that kind is reserved for the
end-of-loop emission. -/
theorem scanToken_ne_eof (c : Char) (rest : List Char) (line : Nat)
    (rem : List Char) (line' : Nat) (t : Token)
    (h : Scanner.scanToken c rest line = .ok (rem, line', some t)) :
    t.kind ≠ .EOF := by
  unfold Scanner.scanToken at h
  split_ifs at h
  · -- LEFT_BRACE
    simp only [Except.ok.injEq, Prod.mk.injEq, Option.some.injEq] at h
    obtain ⟨-, -, ht⟩ := h
    subst ht
    simp
  · -- RIGHT_BRACE
    simp only [Except.ok.injEq, Prod.mk.injEq, Option.some.injEq] at h
    obtain ⟨-, -, ht⟩ := h
    subst ht
    simp
  · -- SEMICOLON
    simp only [Except.ok.injEq, Prod.mk.injEq, Option.some.injEq] at h
    obtain ⟨-, -, ht⟩ := h
    subst ht
    simp
  · -- comment: no token
    simp only [Except.ok.injEq, Prod.mk.injEq] at h
    exact absurd h.2.2 (by simp)
  · -- space
    simp only [Except.ok.injEq, Prod.mk.injEq] at h
    exact absurd h.2.2 (by simp)
  · -- carriage return
    simp only [Except.ok.injEq, Prod.mk.injEq] at h
    exact absurd h.2.2 (by simp)
  · -- tab
    simp only [Except.ok.injEq, Prod.mk.injEq] at h
    exact absurd h.2.2 (by simp)
  · -- newline
    simp only [Except.ok.injEq, Prod.mk.injEq] at h
    exact absurd h.2.2 (by simp)
  · -- string
    unfold Scanner.scanString at h
    split at h
    · exact Except.noConfusion h
    · simp only [Except.ok.injEq, Prod.mk.injEq, Option.some.injEq] at h
      obtain ⟨-, -, ht⟩ := h
      subst ht
      simp
  · -- number
    unfold Scanner.scanNumber at h
    split_ifs at h
    all_goals
      simp only [Except.ok.injEq, Prod.mk.injEq, Option.some.injEq] at h
    all_goals
      obtain ⟨-, -, ht⟩ := h
    all_goals
      subst ht
    all_goals simp
  · -- identifier
    unfold Scanner.scanIdentifier at h
    cases hlk : kReservedKeywords.lookup (c :: rest.takeWhile isAlphaNumeric) with
    | some info =>
      rw [hlk] at h
      simp only [Except.ok.injEq, Prod.mk.injEq, Option.some.injEq] at h
      obtain ⟨-, -, ht⟩ := h
      subst ht
      rcases kReservedKeywords_lookup_some _ _ hlk with hi | hi | hi <;>
        subst hi <;> simp
    | none =>
      rw [hlk] at h
      simp only [Except.ok.injEq, Prod.mk.injEq, Option.some.injEq] at h
      obtain ⟨-, -, ht⟩ := h
      subst ht
      simp

/-- Collecting scan: the output extends the accumulator with non-EOF tokens
and one final EOF. -/
theorem scanLoop_collect_eof :
    ∀ (fuel : Nat) (rem : List Char) (line : Nat) (acc toks : List Token),
      Scanner.scanLoop collectToken fuel rem line acc = .ok toks →
      ∃ mid, toks = acc ++ mid ++ [eofToken] ∧ ∀ u ∈ mid, u.kind ≠ .EOF := by
  intro fuel
  induction fuel with
  | zero => intro rem line acc toks h; exact Except.noConfusion h
  | succ n ih =>
    intro rem line acc toks h
    cases rem with
    | nil =>
      replace h : (Except.ok (acc ++ [eofToken]) :
          Except MemoError (List Token)) = .ok toks := h
      injection h with h
      subst h
      exact ⟨[], by simp, by simp⟩
    | cons c rest =>
      rw [scanLoop_cons] at h
      cases hsc : Scanner.scanToken c rest line with
      | error e => rw [hsc] at h; exact Except.noConfusion h
      | ok v =>
        obtain ⟨rem', line', t?⟩ := v
        rw [hsc] at h
        cases t? with
        | none => exact ih rem' line' acc toks h
        | some t =>
          replace h : Scanner.scanLoop collectToken n rem' line' (acc ++ [t]) =
              .ok toks := h
          obtain ⟨mid, hm, hne⟩ := ih rem' line' (acc ++ [t]) toks h
          refine ⟨t :: mid, ?_, ?_⟩
          · simp only [List.append_assoc, List.singleton_append] at hm
            simpa [List.append_assoc] using hm
          · intro u hu
            rcases List.mem_cons.mp hu with rfl | hu2
            · exact scanToken_ne_eof c rest line rem' line' u hsc
            · exact hne u hu2

/-- C5: every successful standalone scan emits exactly one EOF token, as the
last token; comment-only and whitespace-only inputs emit nothing else. -/
theorem C5_scan_eof_last :
    (∀ (src : List Char) (toks : List Token), scanTokens src = .ok toks →
        ∃ pre, toks = pre ++ [eofToken] ∧ ∀ u ∈ pre, u.kind ≠ .EOF) ∧
    scanTokens "# comment".toList = .ok [eofToken] ∧
    scanTokens "\t".toList = .ok [eofToken] := by
  refine ⟨?_, by rfl, by rfl⟩
  intro src toks h
  obtain ⟨mid, hm, hne⟩ := scanLoop_collect_eof (src.length + 1) src 1 [] toks h
  exact ⟨mid, by simpa using hm, hne⟩

/-- Witness for C5 on a one-identifier input. -/
theorem C5_scan_eof_last_witness :
    ∃ pre, [(⟨.IDENTIFIER, some "i".toList, some (.str "i".toList), none⟩ : Token),
        eofToken] = pre ++ [eofToken] ∧ ∀ u ∈ pre, u.kind ≠ .EOF :=
  C5_scan_eof_last.1 "i".toList
    [⟨.IDENTIFIER, some "i".toList, some (.str "i".toList), none⟩, eofToken] (by rfl)

/-- C6: string scanning fails with the unterminated-string error carrying the
current line when no closing quote exists; otherwise it emits a STRING token
whose value is the text strictly between the quotes and whose lexeme is the
empty string.  scanToken dispatches an opening quote to exactly this routine,
and the concrete inputs confirm both outcomes through a full scan. -/
theorem C6_string_scanning :
    (∀ (rest : List Char) (line : Nat), '"' ∉ rest →
        Scanner.scanString rest line =
          .error (.MemoSyntaxError "Unterminated string."
            (some ⟨line + rest.count '\n', 0⟩))) ∧
    (∀ (rest : List Char) (line : Nat), '"' ∈ rest →
        ∃ content after, rest = content ++ '"' :: after ∧ '"' ∉ content ∧
          Scanner.scanString rest line =
            .ok (after, line + content.count '\n',
                 some ⟨.STRING, some [], some (.str content), none⟩)) ∧
    (∀ (rest : List Char) (line : Nat),
        Scanner.scanToken '"' rest line = Scanner.scanString rest line) ∧
    scanTokens "\"ab".toList =
      .error (.MemoSyntaxError "Unterminated string." (some ⟨1, 0⟩)) ∧
    scanTokens "\"str\"".toList =
      .ok [⟨.STRING, some [], some (.str "str".toList), none⟩, eofToken] := by
  refine ⟨?_, ?_, ?_, by rfl, by rfl⟩
  · intro rest line hq
    have hall : ∀ x ∈ rest, notQuote x = true := by
      intro x hx
      simp only [notQuote, decide_eq_true_eq]
      rintro rfl
      exact hq hx
    have hdrop : rest.dropWhile notQuote = [] := List.dropWhile_eq_nil_iff.mpr hall
    have htake : rest.takeWhile notQuote = rest := List.takeWhile_eq_self_iff.mpr hall
    simp [Scanner.scanString, hdrop, htake]
  · intro rest line hq
    cases hd : rest.dropWhile notQuote with
    | nil =>
      exfalso
      have := List.dropWhile_eq_nil_iff.mp hd _ hq
      simp [notQuote] at this
    | cons c after =>
      have hcq : notQuote c = false := dropWhile_head_false notQuote rest c after hd
      have hc : c = '"' := by simpa [notQuote] using hcq
      subst hc
      refine ⟨rest.takeWhile notQuote, after, ?_, ?_, ?_⟩
      · have hx := List.takeWhile_append_dropWhile notQuote rest
        rw [hd] at hx
        exact hx.symm
      · intro hmem
        have := List.mem_takeWhile_imp hmem
        simp [notQuote] at this
      · simp [Scanner.scanString, hd]
  · intro rest line
    rfl

/-- Witness for C6 on a concrete unterminated remainder. -/
theorem C6_string_scanning_witness :
    Scanner.scanString "ab".toList 1 =
      .error (.MemoSyntaxError "Unterminated string." (some ⟨1, 0⟩)) :=
  C6_string_scanning.1 "ab".toList 1 (by decide)

/-- A digit-or-dot character is none of the structural, whitespace, comment
or quote characters of the dispatch switch. -/
theorem digitDot_char_facts (c : Char) (h : (isDigit c || isDot c) = true) :
    c ≠ '\x7b' ∧ c ≠ '\x7d' ∧ c ≠ ';' ∧ c ≠ '#' ∧ c ≠ ' ' ∧ c ≠ '\r' ∧
    c ≠ '\t' ∧ c ≠ '\n' ∧ c ≠ '"' := by
  refine ⟨?_, ?_, ?_, ?_, ?_, ?_, ?_, ?_, ?_⟩ <;>
    (rintro rfl; revert h; decide)

/-- An alphabetic (or underscore) character is neither a digit nor a dot and
none of the dispatch switch's special characters. -/
theorem isAlpha_char_facts (c : Char) (h : isAlpha c = true) :
    (isDigit c || isDot c) = false ∧ c ≠ '\x7b' ∧ c ≠ '\x7d' ∧ c ≠ ';' ∧
    c ≠ '#' ∧ c ≠ ' ' ∧ c ≠ '\r' ∧ c ≠ '\t' ∧ c ≠ '\n' ∧ c ≠ '"' := by
  have ha : ('a'.toNat ≤ c.toNat ∧ c.toNat ≤ 'z'.toNat) ∨
      ('A'.toNat ≤ c.toNat ∧ c.toNat ≤ 'Z'.toNat) ∨ c.toNat = '_'.toNat := by
    simpa [isAlpha] using h
  refine ⟨?_, ?_, ?_, ?_, ?_, ?_, ?_, ?_, ?_, ?_⟩
  · have hv : 'a'.toNat = 97 ∧ 'z'.toNat = 122 ∧ 'A'.toNat = 65 ∧
        'Z'.toNat = 90 ∧ '_'.toNat = 95 ∧ '0'.toNat = 48 ∧ '9'.toNat = 57 ∧
        '.'.toNat = 46 := by decide
    obtain ⟨e1, e2, e3, e4, e5, e6, e7, e8⟩ := hv
    simp only [isDigit, isDot, Bool.or_eq_false_iff, decide_eq_false_iff_not]
    omega
  all_goals (rintro rfl; revert ha; decide)

/-- C7: on a digit or dot, scanToken emits one NUMBER token whose lexeme is
the exact consumed substring (the dispatched character, a digit run, and a
fraction part taken only when a dot is immediately followed by a digit) and
whose value is the parsed number; the concrete inputs 3, 2.5 and .75 scan to
the numbers 3, 5/2 = 2.5 and 3/4 = 0.75. -/
theorem C7_number_scanning :
    (∀ (c : Char) (rest : List Char) (line : Nat), (isDigit c || isDot c) = true →
        ∃ lex rem, Scanner.scanToken c rest line =
            .ok (rem, line, some ⟨.NUMBER, some lex,
              some (.num (parseFloatModel lex)), none⟩) ∧
          c :: rest = lex ++ rem ∧
          (∃ ds tail, lex = c :: ds ++ tail ∧ (∀ d ∈ ds, isDigit d = true) ∧
            (tail = [] ∨ ∃ frac, tail = '.' :: frac ∧ frac ≠ [] ∧
              ∀ d ∈ frac, isDigit d = true))) ∧
    scanTokens "3".toList =
      .ok [⟨.NUMBER, some "3".toList, some (.num (.val (mkRat 3 1))), none⟩, eofToken] ∧
    mkRat 3 1 = (3 : ℚ) ∧
    scanTokens "2.5".toList =
      .ok [⟨.NUMBER, some "2.5".toList, some (.num (.val (mkRat 5 2))), none⟩, eofToken] ∧
    mkRat 5 2 = (2.5 : ℚ) ∧
    scanTokens ".75".toList =
      .ok [⟨.NUMBER, some ".75".toList, some (.num (.val (mkRat 3 4))), none⟩, eofToken] ∧
    mkRat 3 4 = (0.75 : ℚ) := by
  refine ⟨?_, by rfl, by norm_num [Rat.mkRat_eq_div], by rfl,
    by norm_num [Rat.mkRat_eq_div], by rfl, by norm_num [Rat.mkRat_eq_div]⟩
  intro c rest line h
  obtain ⟨hb1, hb2, hb3, hb4, hb5, hb6, hb7, hb8, hb9⟩ := digitDot_char_facts c h
  have hstep : Scanner.scanToken c rest line = .ok (Scanner.scanNumber c rest line) := by
    unfold Scanner.scanToken
    rw [if_neg hb1, if_neg hb2, if_neg hb3, if_neg hb4, if_neg hb5, if_neg hb6,
        if_neg hb7, if_neg hb8, if_neg hb9, if_pos h]
  have hsplit := List.takeWhile_append_dropWhile isDigit rest
  by_cases hfrac : (peekChar (rest.dropWhile isDigit) = '.' &&
      isDigit (peekNextChar (rest.dropWhile isDigit))) = true
  · obtain ⟨hdot, hdig⟩ := by simpa [Bool.and_eq_true, decide_eq_true_eq] using hfrac
    cases hr1 : rest.dropWhile isDigit with
    | nil => rw [hr1] at hdot; exact absurd hdot (by decide)
    | cons e es =>
      rw [hr1] at hdot
      replace hdot : e = '.' := hdot
      subst hdot
      cases es with
      | nil => rw [hr1] at hdig; exact absurd hdig (by decide)
      | cons d r2 =>
        rw [hr1] at hdig
        replace hdig : isDigit d = true := hdig
        have hnum : Scanner.scanNumber c rest line =
            (((rest.dropWhile isDigit).drop 1).dropWhile isDigit, line,
             some ⟨.NUMBER,
               some (c :: rest.takeWhile isDigit ++
                 '.' :: ((rest.dropWhile isDigit).drop 1).takeWhile isDigit),
               some (.num (parseFloatModel (c :: rest.takeWhile isDigit ++
                 '.' :: ((rest.dropWhile isDigit).drop 1).takeWhile isDigit))),
               none⟩) := by
          unfold Scanner.scanNumber
          rw [if_pos hfrac]
        have hdrop1 : (rest.dropWhile isDigit).drop 1 = d :: r2 := by
          rw [hr1]
          rfl
        refine ⟨c :: rest.takeWhile isDigit ++
            '.' :: ((rest.dropWhile isDigit).drop 1).takeWhile isDigit,
          ((rest.dropWhile isDigit).drop 1).dropWhile isDigit,
          by rw [hstep, hnum], ?_, ?_⟩
        · have hsplit2 := List.takeWhile_append_dropWhile isDigit
            ((rest.dropWhile isDigit).drop 1)
          calc c :: rest
              = c :: (rest.takeWhile isDigit ++ rest.dropWhile isDigit) := by
                rw [hsplit]
            _ = c :: (rest.takeWhile isDigit ++
                  '.' :: (((rest.dropWhile isDigit).drop 1).takeWhile isDigit ++
                    ((rest.dropWhile isDigit).drop 1).dropWhile isDigit)) := by
                rw [hdrop1, hr1]
                rw [show ((d :: r2).takeWhile isDigit ++
                    (d :: r2).dropWhile isDigit) = d :: r2 from
                  List.takeWhile_append_dropWhile isDigit (d :: r2)]
            _ = (c :: rest.takeWhile isDigit ++
                  '.' :: ((rest.dropWhile isDigit).drop 1).takeWhile isDigit) ++
                  ((rest.dropWhile isDigit).drop 1).dropWhile isDigit := by
                simp
        · refine ⟨rest.takeWhile isDigit,
            '.' :: ((rest.dropWhile isDigit).drop 1).takeWhile isDigit, by simp,
            fun d2 hd2 => List.mem_takeWhile_imp hd2, Or.inr ⟨_, rfl, ?_, ?_⟩⟩
          · rw [hdrop1, List.takeWhile_cons_of_pos hdig]
            simp
          · intro d2 hd2
            exact List.mem_takeWhile_imp hd2
  · have hnum : Scanner.scanNumber c rest line =
        (rest.dropWhile isDigit, line,
         some ⟨.NUMBER, some (c :: rest.takeWhile isDigit),
           some (.num (parseFloatModel (c :: rest.takeWhile isDigit))), none⟩) := by
      unfold Scanner.scanNumber
      rw [if_neg hfrac]
    refine ⟨c :: rest.takeWhile isDigit, rest.dropWhile isDigit,
      by rw [hstep, hnum], by rw [List.cons_append, hsplit], ?_⟩
    exact ⟨rest.takeWhile isDigit, [], by simp,
      fun d2 hd2 => List.mem_takeWhile_imp hd2, Or.inl rfl⟩

/-- Witness for C7 at the remaining input of ".75" after its dot. -/
theorem C7_number_scanning_witness :
    ∃ lex rem, Scanner.scanToken '.' "75".toList 1 =
        .ok (rem, 1, some ⟨.NUMBER, some lex,
          some (.num (parseFloatModel lex)), none⟩) ∧
      '.' :: "75".toList = lex ++ rem ∧
      (∃ ds tail, lex = '.' :: ds ++ tail ∧ (∀ d ∈ ds, isDigit d = true) ∧
        (tail = [] ∨ ∃ frac, tail = '.' :: frac ∧ frac ≠ [] ∧
          ∀ d ∈ frac, isDigit d = true)) :=
  C7_number_scanning.1 '.' "75".toList 1 (by decide)

/-- C8: an alphabetic or underscore character dispatches to identifier
scanning, which consumes the maximal alphanumeric run; the reserved words
true, false and null become TRUE, FALSE and NULL tokens with their decoded
values (never IDENTIFIER), and any other word becomes an IDENTIFIER token
whose value is the word itself. -/
theorem C8_identifier_keywords :
    (∀ (c : Char) (rest : List Char) (line : Nat), isAlpha c = true →
        Scanner.scanToken c rest line = .ok (Scanner.scanIdentifier c rest line) ∧
        (c :: rest.takeWhile isAlphaNumeric = "true".toList →
          Scanner.scanIdentifier c rest line =
            (rest.dropWhile isAlphaNumeric, line,
             some ⟨.TRUE, some (c :: rest.takeWhile isAlphaNumeric),
               some (.bool true), none⟩)) ∧
        (c :: rest.takeWhile isAlphaNumeric = "false".toList →
          Scanner.scanIdentifier c rest line =
            (rest.dropWhile isAlphaNumeric, line,
             some ⟨.FALSE, some (c :: rest.takeWhile isAlphaNumeric),
               some (.bool false), none⟩)) ∧
        (c :: rest.takeWhile isAlphaNumeric = "null".toList →
          Scanner.scanIdentifier c rest line =
            (rest.dropWhile isAlphaNumeric, line,
             some ⟨.NULL, some (c :: rest.takeWhile isAlphaNumeric),
               some .null, none⟩)) ∧
        (c :: rest.takeWhile isAlphaNumeric ≠ "true".toList →
         c :: rest.takeWhile isAlphaNumeric ≠ "false".toList →
         c :: rest.takeWhile isAlphaNumeric ≠ "null".toList →
          Scanner.scanIdentifier c rest line =
            (rest.dropWhile isAlphaNumeric, line,
             some ⟨.IDENTIFIER, some (c :: rest.takeWhile isAlphaNumeric),
               some (.str (c :: rest.takeWhile isAlphaNumeric)), none⟩))) ∧
    scanTokens "ident1".toList =
      .ok [⟨.IDENTIFIER, some "ident1".toList, some (.str "ident1".toList), none⟩,
        eofToken] ∧
    scanTokens "_".toList =
      .ok [⟨.IDENTIFIER, some "_".toList, some (.str "_".toList), none⟩, eofToken] ∧
    scanTokens "true".toList =
      .ok [⟨.TRUE, some "true".toList, some (.bool true), none⟩, eofToken] ∧
    scanTokens "false".toList =
      .ok [⟨.FALSE, some "false".toList, some (.bool false), none⟩, eofToken] ∧
    scanTokens "null".toList =
      .ok [⟨.NULL, some "null".toList, some .null, none⟩, eofToken] := by
  refine ⟨?_, by rfl, by rfl, by rfl, by rfl, by rfl⟩
  intro c rest line h
  obtain ⟨hb0, hb1, hb2, hb3, hb4, hb5, hb6, hb7, hb8, hb9⟩ := isAlpha_char_facts c h
  refine ⟨?_, ?_, ?_, ?_, ?_⟩
  · unfold Scanner.scanToken
    rw [if_neg hb1, if_neg hb2, if_neg hb3, if_neg hb4, if_neg hb5, if_neg hb6,
        if_neg hb7, if_neg hb8, if_neg hb9, if_neg (by simp [hb0]), if_pos h]
  · intro htext
    unfold Scanner.scanIdentifier
    rw [htext,
      show kReservedKeywords.lookup "true".toList =
        some ⟨TokenKind.TRUE, some (.bool true)⟩ from rfl]
  · intro htext
    unfold Scanner.scanIdentifier
    rw [htext,
      show kReservedKeywords.lookup "false".toList =
        some ⟨TokenKind.FALSE, some (.bool false)⟩ from rfl]
  · intro htext
    unfold Scanner.scanIdentifier
    rw [htext,
      show kReservedKeywords.lookup "null".toList =
        some ⟨TokenKind.NULL, some Value.null⟩ from rfl]
  · intro ht hf hn
    unfold Scanner.scanIdentifier
    rw [kReservedKeywords_lookup_none _ hf hn ht]

/-- Witness for C8 at a concrete non-reserved word. -/
theorem C8_identifier_keywords_witness :
    Scanner.scanToken 'a' "bc".toList 1 =
      .ok (Scanner.scanIdentifier 'a' "bc".toList 1) :=
  (C8_identifier_keywords.1 'a' "bc".toList 1 (by decide)).1

end MemoML
